import Mathlib

/-!
Shallow embedding of the EduSummarizeAI core (chapter segmentation and the
progress/state-tracking engine) and proofs about it.

Sources embedded:
* `src/db/database.py` — the record store (`DatabaseManager`) over the entities
  Book/Chapter/Summary/Concept/UserProgress.  Each store operation opens its own
  session, queries with `.first()` (= `List.find?`), mutates the found row and
  commits; the SQLite-backed store is modelled as an explicit `DBState` value
  threaded through each operation.  JSON (de)serialization of the
  completed-chapters column is abstracted as a `Blob`: the code only ever stores
  `json.dumps` of a list of chapter ids, and `json.loads` either recovers such a
  list or raises on unparseable text.
* `src/core/interactive_learning.py` — the learning-session controller.  The
  external text generator (`ChapterSummarizer`, a Gemini-backed LLM wrapper) is
  modelled as an oracle record of pure functions; `start_learning_session`
  additionally reports how many times each generator entry point was invoked.
* `src/core/pdf_extractor.py` — chapter segmentation (`detect_chapters` and
  `_extract_chapters_by_ranges`), embedded over `List Char` so that the
  character-offset arithmetic of `re.finditer` is explicit.
-/

namespace EduSum

/-- The serialized `completed_chapters` column (`Text`, default `"[]"`).
The code writes only `json.dumps` of a list of ids (`jsonList`); any other
stored text is unparseable (`malformed`). -/
inductive Blob where
  | jsonList (xs : List Nat)
  | malformed (s : String)
deriving DecidableEq, Repr

/-- `json.loads` on the stored column: recovers the list, or raises
(`JSONDecodeError`, modelled as `Except.error`) on malformed text. -/
def loads : Blob → Except Unit (List Nat)
  | Blob.jsonList xs => Except.ok xs
  | Blob.malformed _ => Except.error ()

/-- Python truthiness of the stored column (`if ... user_progress.completed_chapters:`):
a dumped list is a nonempty string, malformed text is truthy iff nonempty. -/
def blobTruthy : Blob → Bool
  | Blob.jsonList _ => true
  | Blob.malformed s => !(s = "")

/-- Row of the `chapters` table (the fields the embedded operations use). -/
structure ChapterRec where
  id : Nat
  book_id : Nat
  chapter_number : Nat
  title : String
  content : String
deriving DecidableEq, Repr

/-- Row of the `summaries` table. -/
structure SummaryRec where
  id : Nat
  chapter_id : Nat
  content : String
deriving DecidableEq, Repr

/-- Row of the `concepts` table. -/
structure ConceptRec where
  id : Nat
  chapter_id : Nat
  name : String
  explanation : String
  exampleText : String  -- the `example` column (`example` is a Lean keyword)
  analogy : String
  is_understood : Bool
deriving DecidableEq, Repr

/-- Row of the `user_progress` table. -/
structure ProgressRec where
  id : Nat
  book_id : Nat
  last_chapter_id : Option Nat
  completed_chapters : Blob
deriving DecidableEq, Repr

/-- The persistent store: the tables the embedded operations touch. -/
structure DBState where
  chapters : List ChapterRec
  summaries : List SummaryRec
  concepts : List ConceptRec
  progress : List ProgressRec
deriving DecidableEq, Repr

/-- Replace the first element satisfying `P` (the row found by
`query(...).filter(...).first()` and then mutated in place). -/
def replaceFirstBy (P : α → Bool) (v : α) : List α → List α
  | [] => []
  | x :: xs => if P x then v :: xs else x :: replaceFirstBy P v xs

/-- `ROWID` assignment for an append-only table: one more than the maximum id. -/
def freshId (ids : List Nat) : Nat := ids.foldr max 0 + 1

/-- `DatabaseManager.get_chapter`: first row with the given id, or `None`. -/
def getChapter (st : DBState) (chapter_id : Nat) : Option ChapterRec :=
  st.chapters.find? (fun c => c.id = chapter_id)

/-- `DatabaseManager.get_summary`: first summary row for the chapter, or `None`. -/
def getSummary (st : DBState) (chapter_id : Nat) : Option SummaryRec :=
  st.summaries.find? (fun s => s.chapter_id = chapter_id)

/-- `DatabaseManager.get_concept` (`.filter(Concept.id == concept_id).first()`). -/
def getConcept (st : DBState) (concept_id : Nat) : Option ConceptRec :=
  st.concepts.find? (fun c => c.id = concept_id)

/-- `DatabaseManager.get_concepts_by_chapter`: all concept rows of the chapter. -/
def getConceptsByChapter (st : DBState) (chapter_id : Nat) : List ConceptRec :=
  st.concepts.filter (fun c => c.chapter_id = chapter_id)

/-- `DatabaseManager.get_user_progress`: first progress row for the book. -/
def getUserProgress (st : DBState) (book_id : Nat) : Option ProgressRec :=
  st.progress.find? (fun p => p.book_id = book_id)

/-- `DatabaseManager.create_summary`: insert a new summary row and commit. -/
def createSummary (st : DBState) (chapter_id : Nat) (content : String) :
    SummaryRec × DBState :=
  let s : SummaryRec :=
    { id := freshId (st.summaries.map (fun r => r.id)),
      chapter_id := chapter_id, content := content }
  (s, { st with summaries := st.summaries ++ [s] })

/-- `DatabaseManager.create_concept`: insert a new concept row
(`is_understood` defaults to false) and commit. -/
def createConcept (st : DBState) (chapter_id : Nat)
    (name explanation exampleText analogy : String) : ConceptRec × DBState :=
  let c : ConceptRec :=
    { id := freshId (st.concepts.map (fun r => r.id)),
      chapter_id := chapter_id, name := name, explanation := explanation,
      exampleText := exampleText, analogy := analogy, is_understood := false }
  (c, { st with concepts := st.concepts ++ [c] })

/-- `DatabaseManager.mark_concept_understood`: find the concept row by id;
if present, set its flag and commit; return the (updated) row or `None`. -/
def markConceptUnderstood (st : DBState) (concept_id : Nat) (understood : Bool) :
    Option ConceptRec × DBState :=
  match st.concepts.find? (fun c => c.id = concept_id) with
  | none => (none, st)
  | some c =>
    let c2 := { c with is_understood := understood }
    (some c2,
      { st with concepts := replaceFirstBy (fun q => q.id = concept_id) c2 st.concepts })

/-- `DatabaseManager.update_user_progress(book_id, chapter_id=None)`.

If no progress row exists, create one with `last_chapter_id = chapter_id` and
`completed_chapters = "[]"` (the chapter is NOT added to the set on creation).
If one exists and `chapter_id` is truthy (in Python, `if chapter_id:` — `None`
and `0` are falsy), set `last_chapter_id`, `json.loads` the stored set — an
exception from an unparseable blob propagates after rollback, leaving the state
unchanged — and append `chapter_id` only if it is not already a member. -/
def updateUserProgress (st : DBState) (book_id : Nat) (chapter_id : Option Nat) :
    Except Unit (ProgressRec × DBState) :=
  match getUserProgress st book_id with
  | none =>
    let p : ProgressRec :=
      { id := freshId (st.progress.map (fun r => r.id)),
        book_id := book_id, last_chapter_id := chapter_id,
        completed_chapters := Blob.jsonList [] }
    Except.ok (p, { st with progress := st.progress ++ [p] })
  | some p =>
    match chapter_id with
    | some c =>
      if c ≠ 0 then
        match loads p.completed_chapters with
        | Except.error e => Except.error e
        | Except.ok completed =>
          let blob2 := if c ∈ completed then p.completed_chapters
                       else Blob.jsonList (completed ++ [c])
          let p2 := { p with last_chapter_id := some c, completed_chapters := blob2 }
          Except.ok (p2,
            { st with progress := replaceFirstBy (fun q => q.book_id = book_id) p2 st.progress })
      else Except.ok (p, st)
    | none => Except.ok (p, st)

/-- Errors raised by the controller: a missing-id `ValueError` (NotFound) or a
propagated parse failure from the store. -/
inductive Err where
  | notFound
  | parseFailure
deriving DecidableEq, Repr

/-- The concept dictionary handed to the external generator
(`{id, name, explanation, example, analogy}`). -/
structure ConceptData where
  id : Nat
  name : String
  explanation : String
  exampleText : String  -- the `example` key (`example` is a Lean keyword)
  analogy : String
deriving DecidableEq, Repr

/-- The external text generator (`ChapterSummarizer`), an LLM-backed black box:
`summarize` is `summarize_chapter`, `extractConcepts` is `extract_concepts`
(which already degrades unparseable LLM output to `[]`), and `explainSimpler`
is the `simpler_explanation` field produced by `explain_concept_simpler`. -/
structure Generator where
  summarize : String → String
  extractConcepts : String → List ConceptData
  explainSimpler : ConceptData → String

/-- One annotated concept of the session view. -/
structure ConceptView where
  id : Nat
  name : String
  explanation : String
  exampleText : String  -- the `example` column (`example` is a Lean keyword)
  analogy : String
  is_understood : Bool
deriving DecidableEq, Repr

/-- The dictionary returned by `start_learning_session`. -/
structure SessionView where
  chapter_id : Nat
  chapter_title : String
  chapter_number : Nat
  summary : String
  concepts : List ConceptView
deriving DecidableEq, Repr

/-- Result of `start_learning_session` together with the post-call store and
the number of generator invocations (`summarize_chapter` / `extract_concepts`)
made during the call. -/
structure SessionResult where
  result : Except Err SessionView
  state : DBState
  sumCalls : Nat
  extCalls : Nat

/-- Tail of `start_learning_session` after the summary exists: fetch all
concepts, record the visit via `update_user_progress(book_id, chapter_id)`
(a parse failure there propagates, after the per-operation rollback), and
build the response. -/
def finishSession (st : DBState) (ch : ChapterRec) (chapter_id : Nat)
    (summaryContent : String) (sumCalls extCalls : Nat) : SessionResult :=
  let concepts := getConceptsByChapter st chapter_id
  match updateUserProgress st ch.book_id (some chapter_id) with
  | Except.error _ => ⟨Except.error Err.parseFailure, st, sumCalls, extCalls⟩
  | Except.ok (_, st2) =>
    ⟨Except.ok
      { chapter_id := ch.id, chapter_title := ch.title,
        chapter_number := ch.chapter_number, summary := summaryContent,
        concepts := concepts.map (fun c =>
          { id := c.id, name := c.name, explanation := c.explanation,
            exampleText := c.exampleText, analogy := c.analogy,
            is_understood := c.is_understood }) },
      st2, sumCalls, extCalls⟩

/-- `InteractiveLearning.start_learning_session`: raise NotFound if the chapter
does not exist; if no summary exists, generate one, persist it, extract
concepts from the summary text and persist each; then always fetch the
chapter's concepts, record the visit and return the view. -/
def startLearningSession (gen : Generator) (st : DBState) (chapter_id : Nat) :
    SessionResult :=
  match getChapter st chapter_id with
  | none => ⟨Except.error Err.notFound, st, 0, 0⟩
  | some ch =>
    match getSummary st chapter_id with
    | some s => finishSession st ch chapter_id s.content 0 0
    | none =>
      let summaryText := gen.summarize ch.content
      let (s, st1) := createSummary st chapter_id summaryText
      let conceptsData := gen.extractConcepts summaryText
      let st2 := conceptsData.foldl
        (fun acc cd =>
          (createConcept acc chapter_id cd.name cd.explanation cd.exampleText cd.analogy).2)
        st1
      finishSession st2 ch chapter_id s.content 1 1

/-- The dictionary returned by `process_concept_understanding`:
`simpler_explanation` is present only on the not-understood path. -/
structure ProcessResult where
  id : Nat
  name : String
  is_understood : Bool
  simpler_explanation : Option String
deriving DecidableEq, Repr

/-- `InteractiveLearning.process_concept_understanding`: NotFound if the
concept id does not exist; on `understood=true` persist the flag and return a
minimal result; on `understood=false` leave the store untouched, call the
external generator on the concept's stored fields and return the simpler
explanation transiently. -/
def processConceptUnderstanding (gen : Generator) (st : DBState)
    (concept_id : Nat) (understood : Bool) :
    Except Err (ProcessResult × DBState) :=
  match getConcept st concept_id with
  | none => Except.error Err.notFound
  | some c =>
    if understood then
      let (_, st2) := markConceptUnderstood st concept_id true
      Except.ok ({ id := c.id, name := c.name, is_understood := true,
                   simpler_explanation := none }, st2)
    else
      let cd : ConceptData :=
        { id := c.id, name := c.name, explanation := c.explanation,
          exampleText := c.exampleText, analogy := c.analogy }
      Except.ok ({ id := c.id, name := c.name, is_understood := false,
                   simpler_explanation := some (gen.explainSimpler cd) }, st)

/-- The statistics dictionary returned by `get_chapter_progress`
(the percentage, a Python float, is modelled as a rational). -/
structure ProgressStats where
  total_concepts : Nat
  understood_concepts : Nat
  progress_percentage : ℚ
deriving DecidableEq, Repr

/-- `InteractiveLearning.get_chapter_progress`: count the chapter's concepts
and the understood ones; the percentage is `understood/total*100` guarded to
`0` when there are no concepts. -/
def getChapterProgress (st : DBState) (chapter_id : Nat) : ProgressStats :=
  let concepts := getConceptsByChapter st chapter_id
  let total := concepts.length
  let understood := (concepts.filter (fun c => c.is_understood)).length
  { total_concepts := total,
    understood_concepts := understood,
    progress_percentage :=
      if total > 0 then (understood : ℚ) / (total : ℚ) * 100 else 0 }

/-- `InteractiveLearning.reset_chapter_progress`: mark every concept of the
chapter not understood; then, if the chapter and a truthy progress record
exist, parse the completed set (an unparseable blob is swallowed by
`except json.JSONDecodeError: pass`), and if the chapter id is a member,
remove it — but only on a *detached* in-memory copy of the row: the session
that loaded `user_progress` was already closed, so assigning
`user_progress.completed_chapters` updates no live session, and the subsequent
`update_user_progress(book_id)` call passes no `chapter_id` and therefore
writes nothing to the row it re-reads from the store. -/
def resetChapterProgress (st : DBState) (chapter_id : Nat) : DBState :=
  let concepts := getConceptsByChapter st chapter_id
  let st1 := concepts.foldl
    (fun acc c => (markConceptUnderstood acc c.id false).2) st
  match getChapter st1 chapter_id with
  | none => st1
  | some ch =>
    match getUserProgress st1 ch.book_id with
    | none => st1
    | some up =>
      if blobTruthy up.completed_chapters then
        match loads up.completed_chapters with
        | Except.error _ => st1
        | Except.ok completed =>
          if chapter_id ∈ completed then
            let up2 := { up with
              completed_chapters := Blob.jsonList (completed.erase chapter_id) }
            let _ := up2  -- mutation of the detached row: never flushed
            match updateUserProgress st1 ch.book_id none with
            | Except.ok (_, st2) => st2
            | Except.error _ => st1
          else st1
      else st1

/-! ### Chapter segmentation (`src/core/pdf_extractor.py`)

`detect_chapters` works on Python strings by character offset; the embedding
uses `List Char` so that `re.finditer` offsets and slicing are explicit. -/

/-- Python strings, embedded as character lists. -/
abbrev Str := List Char

/-- The character list of a Lean string literal. -/
def strl (s : String) : Str := s.data

/-- Python `\s` on the ASCII range (`re` default includes these six). -/
def isPySpace (c : Char) : Bool :=
  c = ' ' || c = '\t' || c = '\n' || c = '\r' || c = '\x0b' || c = '\x0c'

/-- One character of `[IVXLCDM]`. -/
def isRomanChar (c : Char) : Bool :=
  c = 'I' || c = 'V' || c = 'X' || c = 'L' || c = 'C' || c = 'D' || c = 'M'

/-- Match the default heading pattern `(?:Chapter|CHAPTER)\s+(\d+|[IVXLCDM]+)`
at the start of `l`; return the match length and the captured group.
The two 7-character alternatives are mutually exclusive, `\s+` is greedy and —
since no whitespace character is a digit or Roman letter — never backtracks
usefully, and the group alternation tries `\d+` before `[IVXLCDM]+`. -/
def matchChapterAt (l : Str) : Option (Nat × Str) :=
  if (strl "Chapter").isPrefixOf l || (strl "CHAPTER").isPrefixOf l then
    let rest := l.drop 7
    let ws := (rest.takeWhile isPySpace).length
    if ws = 0 then none
    else
      let rest2 := rest.drop ws
      let ds := rest2.takeWhile Char.isDigit
      if ds ≠ [] then some (7 + ws + ds.length, ds)
      else
        let rs := rest2.takeWhile isRomanChar
        if rs ≠ [] then some (7 + ws + rs.length, rs) else none
  else none

/-- `re.finditer` scan: from offset `i`, emit the leftmost match and resume at
its end (the pattern never matches the empty string, so the scan always
advances).  `fuel` bounds the recursion; the offset grows by at least one per
step, so `s.length` fuel reaches the end of the text. -/
def findIterAux (s : Str) : Nat → Nat → List (Nat × Str)
  | 0, _ => []
  | fuel + 1, i =>
    if i < s.length then
      match matchChapterAt (s.drop i) with
      | some (len, g) => (i, g) :: findIterAux s fuel (i + max len 1)
      | none => findIterAux s fuel (i + 1)
    else []

/-- All matches of the default heading pattern, as (start offset, group). -/
def findIter (s : Str) : List (Nat × Str) := findIterAux s s.length 0

/-- `f"[PAGE_{i}]\n{text}"` — one page prefixed with its marker token. -/
def pageMarked (i : Nat) (t : Str) : Str :=
  strl "[PAGE_" ++ strl (toString i) ++ ']' :: '\n' :: t

/-- `"\n".join([f"[PAGE_{i}]\n{text}" ...])` — the scanned blob. -/
def fullText (pages : List Str) : Str :=
  List.intercalate ['\n'] (pages.mapIdx pageMarked)

/-- `self.raw_text = "\n".join(self.pages_text)`. -/
def rawText (pages : List Str) : Str := List.intercalate ['\n'] pages

/-- Python `str.replace('[PAGE_', '\nPage ')`: leftmost, non-overlapping. -/
def replOpen : Str → Str
  | '[' :: 'P' :: 'A' :: 'G' :: 'E' :: '_' :: rest =>
    '\n' :: 'P' :: 'a' :: 'g' :: 'e' :: ' ' :: replOpen rest
  | c :: rest => c :: replOpen rest
  | [] => []

/-- Python `str.replace(']\n', ':\n')`: leftmost, non-overlapping. -/
def replClose : Str → Str
  | ']' :: '\n' :: rest => ':' :: '\n' :: replClose rest
  | c :: rest => c :: replClose rest
  | [] => []

/-- `.replace('[PAGE_', '\nPage ').replace(']\n', ':\n')` as applied to each
extracted chapter span. -/
def reformat (s : Str) : Str := replClose (replOpen s)

/-- The raw chapter spans: each match starts a chapter running to the next
match's start, the last to the end of the text; the label is
`f"Chapter {chapter_num}"`. -/
def segsOf (full : Str) : List (Nat × Str) → List (Str × Str)
  | [] => []
  | (p, g) :: rest =>
    let e := match rest with
      | [] => full.length
      | (q, _) :: _ => q
    (strl "Chapter " ++ g, (full.drop p).take (e - p)) :: segsOf full rest

/-- Python `dict` assignment `d[k] = v`: overwrite in place if the key exists
(keeping its position), else append. -/
def dictInsert (d : List (Str × Str)) (k v : Str) : List (Str × Str) :=
  if d.any (fun kv => kv.1 = k) then
    d.map (fun kv => if kv.1 = k then (k, v) else kv)
  else d ++ [(k, v)]

/-- `PDFExtractor.detect_chapters` in default (pattern) mode, for a fresh
extractor (`self.chapters = {}`): zero matches return the whole raw text as
`"Chapter 1"`; otherwise each match's span is reformatted and assigned into
the chapter dict. -/
def detectChapters (pages : List Str) : List (Str × Str) :=
  let full := fullText pages
  match findIter full with
  | [] => [(strl "Chapter 1", rawText pages)]
  | ms => (segsOf full ms).foldl (fun d nt => dictInsert d nt.1 (reformat nt.2)) []

/-- The validity test of `_extract_chapters_by_ranges`: an entry is skipped
when `start_page < 0 or end_page >= len(self.pages_text) or start_page > end_page`. -/
def rangeValid (pageCount : Nat) (r : Int × Int) : Bool :=
  !(r.1 < 0 || (pageCount : Int) ≤ r.2 || r.2 < r.1)

/-- `"\n".join(self.pages_text[start_page:end_page + 1])` for a valid range. -/
def rangeText (pages : List Str) (r : Int × Int) : Str :=
  List.intercalate ['\n'] ((pages.drop r.1.toNat).take (r.2 + 1 - r.1).toNat)

/-- `PDFExtractor._extract_chapters_by_ranges` for a fresh extractor: iterate
the supplied entries in order, skipping invalid ranges (logged, not raised),
and assign each valid entry's page-range text into the chapter dict. -/
def extractChaptersByRanges (pages : List Str) (ranges : List (Str × Int × Int)) :
    List (Str × Str) :=
  ranges.foldl (fun d nr =>
    if rangeValid pages.length nr.2 then dictInsert d nr.1 (rangeText pages nr.2)
    else d) []

/-- Does `pat` occur as a contiguous substring of `s`? -/
def containsSub (pat s : Str) : Bool :=
  (List.range (s.length + 1)).any (fun i => pat.isPrefixOf (s.drop i))

/-- Skip one reformatted page-marker header `"\nPage <digits>:\n"` if `s`
starts with one, returning the remainder. -/
def headerEnd : Str → Option Str
  | '\n' :: 'P' :: 'a' :: 'g' :: 'e' :: ' ' :: rest =>
    let ds := rest.takeWhile Char.isDigit
    if ds = [] then none
    else
      match rest.drop ds.length with
      | ':' :: '\n' :: rest2 => some rest2
      | _ => none
  | _ => none

/-- Delete every reformatted page-marker header `"\nPage <digits>:\n"` from
`s` (the page markers are inserted into the scanned blob as `[PAGE_<n>]\n`
and reformatted to `\nPage <n>:\n` in the returned chapter texts; deleting
the reformatted header is the undo that would recover the raw text). -/
def stripHeadersAux : Nat → Str → Str
  | 0, s => s
  | _ + 1, [] => []
  | fuel + 1, c :: rest =>
    match headerEnd (c :: rest) with
    | some rest2 => stripHeadersAux fuel rest2
    | none => c :: stripHeadersAux fuel rest

/-- `stripHeadersAux` with enough fuel to scan the whole string. -/
def stripHeaders (s : Str) : Str := stripHeadersAux s.length s

/-! ### Concrete sample stores and generators used by witnesses and
counterexamples -/

/-- A store with one book-1 chapter, its summary, and one not-understood
concept. -/
def stOne : DBState :=
  ⟨[⟨1, 1, 1, "Ch", "content"⟩],
   [⟨1, 1, "summary"⟩],
   [⟨5, 1, "Force", "expl", "ex", "an", false⟩],
   []⟩

/-- A store with one chapter whose summary exists but which has zero
concepts (the persisted outcome of a session whose concept extraction
degraded to the empty list). -/
def stGated : DBState :=
  ⟨[⟨1, 1, 1, "Ch", "content"⟩],
   [⟨1, 1, "summary"⟩],
   [],
   []⟩

/-- A store whose only progress record has an unparseable
`completed_chapters` blob. -/
def stMal : DBState :=
  ⟨[], [], [], [⟨1, 1, none, Blob.malformed "oops"⟩]⟩

/-- A store where chapter 2 of book 1 has one understood concept and the
book's progress record lists chapter 2 as completed. -/
def stReset : DBState :=
  ⟨[⟨2, 1, 1, "Ch", "content"⟩],
   [],
   [⟨5, 2, "Force", "expl", "ex", "an", true⟩],
   [⟨1, 1, some 2, Blob.jsonList [2]⟩]⟩

/-- A constant external generator. -/
def genConst : Generator :=
  ⟨fun _ => "S", fun _ => [], fun _ => "simpler"⟩

/-- The spec's three-page segmentation scenario. -/
def pagesScenario : List Str :=
  [strl "Chapter 1\nIntro text.", strl "More chapter 1 text.",
   strl "Chapter 2\nDetails."]

/-! ### Shared helper lemmas -/

lemma find?_append_of_none {P : α → Bool} {l1 l2 : List α}
    (h : l1.find? P = none) : (l1 ++ l2).find? P = l2.find? P := by
  simp [List.find?_append, h]

lemma find?_replaceFirstBy (P : α → Bool) (v x : α) (l : List α)
    (hv : P v = true) (h : l.find? P = some x) :
    (replaceFirstBy P v l).find? P = some v := by
  induction l with
  | nil => simp at h
  | cons a as ih =>
    by_cases ha : P a
    · simp [replaceFirstBy, ha, hv]
    · rw [List.find?_cons_of_neg _ (by simp [ha])] at h
      simp only [replaceFirstBy, if_neg (by simp [ha] : ¬ P a = true)]
      rw [List.find?_cons_of_neg _ (by simp [ha])]
      exact ih h

/-! ### Claim theorems -/

/-- C10: for every chapter id yielding zero concepts — including ids naming
no chapter — `get_chapter_progress` returns zero totals and percentage 0 (it
is a total function: nothing is raised and nothing divides by zero); with at
least one concept the percentage equals `understood/total*100`. -/
theorem chapter_progress_safe (st : DBState) (chapter_id : Nat) :
    (getConceptsByChapter st chapter_id = [] →
      getChapterProgress st chapter_id =
        { total_concepts := 0, understood_concepts := 0, progress_percentage := 0 }) ∧
    (0 < (getChapterProgress st chapter_id).total_concepts →
      (getChapterProgress st chapter_id).progress_percentage =
        ((getChapterProgress st chapter_id).understood_concepts : ℚ) /
          ((getChapterProgress st chapter_id).total_concepts : ℚ) * 100) := by
  unfold getChapterProgress
  constructor
  · intro h
    rw [h]
    rfl
  · intro h
    simp only at h ⊢
    rw [if_pos h]

/-- Witness for C10 at a concrete store: an id with no concepts, and a
chapter with one concept. -/
theorem chapter_progress_safe_witness :
    getChapterProgress stOne 99 =
      { total_concepts := 0, understood_concepts := 0, progress_percentage := 0 } ∧
    (getChapterProgress stOne 1).progress_percentage =
      ((getChapterProgress stOne 1).understood_concepts : ℚ) /
        ((getChapterProgress stOne 1).total_concepts : ℚ) * 100 :=
  ⟨(chapter_progress_safe stOne 99).1 (by decide),
   (chapter_progress_safe stOne 1).2 (by decide)⟩

/-- C8: when the default heading pattern has zero matches on the scanned
blob, `detect_chapters` returns exactly one chapter, labeled `"Chapter 1"`,
whose text is the full concatenated raw text; no error is raised. -/
theorem detect_no_match_single_chapter (pages : List Str)
    (h : findIter (fullText pages) = []) :
    detectChapters pages = [(strl "Chapter 1", rawText pages)] := by
  simp only [detectChapters, h]

/-- Witness for C8: a two-page document with no heading. -/
theorem detect_no_match_single_chapter_witness :
    findIter (fullText [strl "hello", strl "world"]) = [] ∧
    detectChapters [strl "hello", strl "world"] =
      [(strl "Chapter 1", rawText [strl "hello", strl "world"])] :=
  ⟨by decide, detect_no_match_single_chapter _ (by decide)⟩

/-- C1: `process_concept_understanding` fails with NotFound when the concept
id does not exist; with `understood=true` it persists the flag (the stored
row is updated in place) and returns the minimal marked-understood result;
with `understood=false` it leaves the store exactly unchanged and returns,
transiently, a freshly generated simpler explanation obtained by invoking the
external generator on the concept's stored
name/explanation/example/analogy. -/
theorem process_concept_spec (gen : Generator) (st : DBState) (concept_id : Nat) :
    (getConcept st concept_id = none →
      ∀ u, processConceptUnderstanding gen st concept_id u =
        Except.error Err.notFound) ∧
    (∀ c, getConcept st concept_id = some c →
      processConceptUnderstanding gen st concept_id true =
        Except.ok ({ id := c.id, name := c.name, is_understood := true,
                     simpler_explanation := none },
          { st with
            concepts := replaceFirstBy (fun q => q.id = concept_id)
              ({ c with is_understood := true }) st.concepts }) ∧
      processConceptUnderstanding gen st concept_id false =
        Except.ok ({ id := c.id, name := c.name, is_understood := false,
                     simpler_explanation := some (gen.explainSimpler
                       { id := c.id, name := c.name, explanation := c.explanation,
                         exampleText := c.exampleText, analogy := c.analogy }) },
          st)) := by
  constructor
  · intro h u
    unfold processConceptUnderstanding
    rw [h]
  · intro c hc
    have hc' : st.concepts.find? (fun q => q.id = concept_id) = some c := hc
    constructor
    · unfold processConceptUnderstanding markConceptUnderstood
      rw [hc, hc']
      rfl
    · unfold processConceptUnderstanding
      rw [hc]
      rfl

/-- Witness for C1 at a concrete store and generator: both branches on the
existing concept 5. -/
theorem process_concept_spec_witness :
    processConceptUnderstanding genConst stOne 5 true =
      Except.ok ({ id := 5, name := "Force", is_understood := true,
                   simpler_explanation := none },
        { stOne with
          concepts := replaceFirstBy (fun q => q.id = 5)
            ({ id := 5, chapter_id := 1, name := "Force", explanation := "expl",
               exampleText := "ex", analogy := "an", is_understood := true })
            stOne.concepts }) ∧
    processConceptUnderstanding genConst stOne 5 false =
      Except.ok ({ id := 5, name := "Force", is_understood := false,
                   simpler_explanation := some (genConst.explainSimpler
                     { id := 5, name := "Force", explanation := "expl",
                       exampleText := "ex", analogy := "an" }) },
        stOne) :=
  (process_concept_spec genConst stOne 5).2
    ⟨5, 1, "Force", "expl", "ex", "an", false⟩ (by decide)

lemma dictInsert_fresh (d : List (Str × Str)) (k v : Str)
    (h : ∀ kv ∈ d, kv.1 ≠ k) : dictInsert d k v = d ++ [(k, v)] := by
  unfold dictInsert
  rw [if_neg]
  simp only [List.any_eq_true, decide_eq_true_eq, not_exists, not_and]
  exact fun kv hkv => h kv hkv

lemma rangesFold_go (pages : List Str) (ranges : List (Str × Int × Int)) :
    ∀ d : List (Str × Str),
      ranges.Pairwise (fun a b => a.1 ≠ b.1) →
      (∀ nr ∈ ranges, ∀ kv ∈ d, kv.1 ≠ nr.1) →
      ranges.foldl (fun d nr =>
          if rangeValid pages.length nr.2 then dictInsert d nr.1 (rangeText pages nr.2)
          else d) d
        = d ++ (ranges.filter (fun nr => rangeValid pages.length nr.2)).map
            (fun nr => (nr.1, rangeText pages nr.2)) := by
  induction ranges with
  | nil => intro d _ _; simp
  | cons nr rest ih =>
    intro d hp hf
    rcases List.pairwise_cons.mp hp with ⟨hhead, hrest⟩
    rw [List.foldl_cons]
    by_cases hv : rangeValid pages.length nr.2
    · have hfr : ∀ t ∈ rest, ∀ kv ∈ d ++ [(nr.1, rangeText pages nr.2)], kv.1 ≠ t.1 := by
        intro t ht kv hkv
        rcases List.mem_append.mp hkv with h1 | h2
        · exact hf t (List.mem_cons_of_mem _ ht) kv h1
        · rw [List.mem_singleton.mp h2]
          exact hhead t ht
      have hfil : List.filter (fun nr => rangeValid pages.length nr.2) (nr :: rest)
          = nr :: List.filter (fun nr => rangeValid pages.length nr.2) rest := by
        simp [List.filter_cons, hv]
      rw [if_pos hv,
        dictInsert_fresh _ _ _ (fun kv hkv => hf nr (List.mem_cons_self _ _) kv hkv),
        ih (d ++ [(nr.1, rangeText pages nr.2)]) hrest hfr,
        hfil, List.map_cons, List.append_assoc, List.singleton_append]
    · have hfil : List.filter (fun nr => rangeValid pages.length nr.2) (nr :: rest)
          = List.filter (fun nr => rangeValid pages.length nr.2) rest := by
        simp [List.filter_cons, hv]
      rw [if_neg hv, hfil,
        ih d hrest (fun t ht => hf t (List.mem_cons_of_mem _ ht))]

/-- C9: in explicit-range mode, entries with `start<0`, `end>=page_count` or
`start>end` are skipped without raising while the remaining entries are still
processed; each valid entry yields a chapter whose text is the newline-joined
concatenation of the pages of the inclusive range, with no page markers
(labels are pairwise distinct since the input is a Python dict). -/
theorem ranges_skip_invalid_keep_valid (pages : List Str)
    (ranges : List (Str × Int × Int))
    (hdist : ranges.Pairwise (fun a b => a.1 ≠ b.1)) :
    extractChaptersByRanges pages ranges =
      (ranges.filter (fun nr => rangeValid pages.length nr.2)).map
        (fun nr => (nr.1, rangeText pages nr.2)) := by
  unfold extractChaptersByRanges
  rw [rangesFold_go pages ranges [] hdist (by simp)]
  rfl

/-- Witness for C9: the spec's own scenario — ranges
`Ch A ↦ (0,1), Ch B ↦ (5,2)` over 3 pages yield only `Ch A`. -/
theorem ranges_skip_invalid_keep_valid_witness :
    ([(strl "Ch A", ((0 : Int), (1 : Int))), (strl "Ch B", (5, 2))] :
        List (Str × Int × Int)).Pairwise (fun a b => a.1 ≠ b.1) ∧
    extractChaptersByRanges [strl "p0", strl "p1", strl "p2"]
        [(strl "Ch A", (0, 1)), (strl "Ch B", (5, 2))] =
      [(strl "Ch A", strl "p0\np1")] :=
  ⟨by decide,
   (ranges_skip_invalid_keep_valid [strl "p0", strl "p1", strl "p2"]
      [(strl "Ch A", (0, 1)), (strl "Ch B", (5, 2))] (by decide)).trans (by decide)⟩

lemma updateUserProgress_frame (st : DBState) (bid : Nat) (chid : Option Nat)
    (r : ProgressRec) (st2 : DBState)
    (h : updateUserProgress st bid chid = Except.ok (r, st2)) :
    st2.chapters = st.chapters ∧ st2.summaries = st.summaries ∧
      st2.concepts = st.concepts := by
  unfold updateUserProgress at h
  repeat' split at h
  all_goals first
  | exact Except.noConfusion h
  | (simp only [Except.ok.injEq, Prod.mk.injEq] at h
     obtain ⟨h1, h2⟩ := h
     subst h2
     exact ⟨rfl, rfl, rfl⟩)

/-- C6: on a chapter whose summary exists but which has zero stored concepts
(the persisted outcome when concept extraction degraded to the empty list),
`start_learning_session` makes zero generator calls — summary existence alone
gates regeneration — leaves the summary and concept tables untouched, and any
successfully returned view contains zero concepts. -/
theorem startSession_summary_gates (gen : Generator) (st : DBState)
    (chapter_id : Nat) (ch : ChapterRec) (s : SummaryRec)
    (hch : getChapter st chapter_id = some ch)
    (hs : getSummary st chapter_id = some s)
    (hc : getConceptsByChapter st chapter_id = []) :
    (startLearningSession gen st chapter_id).sumCalls = 0 ∧
    (startLearningSession gen st chapter_id).extCalls = 0 ∧
    (∀ v, (startLearningSession gen st chapter_id).result = Except.ok v →
      v.concepts = []) ∧
    (startLearningSession gen st chapter_id).state.summaries = st.summaries ∧
    (startLearningSession gen st chapter_id).state.concepts = st.concepts := by
  have hrun : startLearningSession gen st chapter_id =
      finishSession st ch chapter_id s.content 0 0 := by
    unfold startLearningSession
    rw [hch, hs]
  rw [hrun]
  unfold finishSession
  rw [hc]
  cases hu : updateUserProgress st ch.book_id (some chapter_id) with
  | error e =>
    refine ⟨rfl, rfl, ?_, rfl, rfl⟩
    intro v hv
    exact Except.noConfusion hv
  | ok pr =>
    obtain ⟨r, st2⟩ := pr
    have hframe := updateUserProgress_frame st ch.book_id (some chapter_id) r st2 hu
    refine ⟨rfl, rfl, ?_, hframe.2.1, hframe.2.2⟩
    intro v hv
    injection hv with h
    subst h
    rfl

/-- Witness for C6 at a concrete store whose chapter 1 has a summary and no
concepts. -/
theorem startSession_summary_gates_witness :
    (startLearningSession genConst stGated 1).sumCalls = 0 ∧
    (startLearningSession genConst stGated 1).extCalls = 0 ∧
    (∀ v, (startLearningSession genConst stGated 1).result = Except.ok v →
      v.concepts = []) ∧
    (startLearningSession genConst stGated 1).state.summaries = stGated.summaries ∧
    (startLearningSession genConst stGated 1).state.concepts = stGated.concepts :=
  startSession_summary_gates genConst stGated 1 ⟨1, 1, 1, "Ch", "content"⟩
    ⟨1, 1, "summary"⟩ (by decide) (by decide) (by decide)

/-- C3 counterexample: on a store whose only progress record for book 1 has an
unparseable completed-chapters blob, `update_user_progress(1, 7)` raises (the
`json.loads` failure propagates after rollback) instead of completing
normally, refuting the claim at this input. -/
theorem updateProgress_malformed_cex :
    getUserProgress stMal 1 = some ⟨1, 1, none, Blob.malformed "oops"⟩ ∧
    loads (Blob.malformed "oops") = Except.error () ∧
    updateUserProgress stMal 1 (some 7) = Except.error () := by
  refine ⟨by decide, rfl, rfl⟩

/-- C3 amended: when a progress record exists for the book and its stored
completed-chapters blob is unparseable, `update_user_progress` with a (truthy)
chapter id fails with the propagated parse error — after the per-operation
rollback the store is left unchanged — rather than treating the stored set as
empty. -/
theorem updateProgress_malformed_raises (st : DBState) (bid c : Nat)
    (p : ProgressRec) (hc : c ≠ 0) (hp : getUserProgress st bid = some p)
    (hm : loads p.completed_chapters = Except.error ()) :
    updateUserProgress st bid (some c) = Except.error () := by
  unfold updateUserProgress
  rw [hp]
  simp only [if_pos hc]
  rw [hm]

/-- Witness for the amended C3 at the concrete malformed store. -/
theorem updateProgress_malformed_raises_witness :
    (7 : Nat) ≠ 0 ∧ updateUserProgress stMal 1 (some 7) = Except.error () :=
  ⟨by decide,
   updateProgress_malformed_raises stMal 1 7 ⟨1, 1, none, Blob.malformed "oops"⟩
     (by decide) (by decide) rfl⟩

/-- C2 (code-bug evidence): at `stReset` — chapter 2 of book 1 has one
understood concept and the book's progress record lists chapter 2 as
completed — `reset_chapter_progress(2)` does reset the concept flag, but the
persisted completed set still contains chapter 2: the removal was computed on
a detached in-memory row and the follow-up `update_user_progress(book_id)`
call (no chapter id) writes nothing. -/
theorem resetChapter_detached_write_lost :
    (resetChapterProgress stReset 2).concepts =
      [⟨5, 2, "Force", "expl", "ex", "an", false⟩] ∧
    (resetChapterProgress stReset 2).progress =
      [⟨1, 1, some 2, Blob.jsonList [2]⟩] := by
  refine ⟨by decide, by decide⟩

lemma updateUserProgress_none (st : DBState) (bid cid : Nat)
    (h : getUserProgress st bid = none) :
    ∃ r1 st1, updateUserProgress st bid (some cid) = Except.ok (r1, st1) ∧
      r1.book_id = bid ∧ r1.completed_chapters = Blob.jsonList [] ∧
      getUserProgress st1 bid = some r1 := by
  unfold updateUserProgress
  rw [h]
  refine ⟨_, _, rfl, rfl, rfl, ?_⟩
  unfold getUserProgress at h ⊢
  simp only
  rw [find?_append_of_none h]
  simp

lemma updateUserProgress_some (st : DBState) (bid cid : Nat) (p : ProgressRec)
    (l : List Nat) (hcid : cid ≠ 0) (hp : getUserProgress st bid = some p)
    (hl : loads p.completed_chapters = Except.ok l) :
    ∃ r1 st1, updateUserProgress st bid (some cid) = Except.ok (r1, st1) ∧
      getUserProgress st1 bid = some r1 ∧
      loads r1.completed_chapters = Except.ok (if cid ∈ l then l else l ++ [cid]) ∧
      r1.book_id = bid := by
  have hpb : p.book_id = bid := by
    have := List.find?_some hp
    simpa using this
  unfold updateUserProgress
  rw [hp]
  simp only [hl]
  rw [if_pos hcid]
  by_cases hm : cid ∈ l
  · rw [if_pos hm]
    refine ⟨_, _, rfl, ?_, ?_, hpb⟩
    · exact find?_replaceFirstBy _ _ p st.progress (by simp [hpb]) hp
    · rw [if_pos hm]
      exact hl
  · rw [if_neg hm]
    refine ⟨_, _, rfl, ?_, ?_, hpb⟩
    · exact find?_replaceFirstBy _ _ p st.progress (by simp [hpb]) hp
    · rw [if_neg hm]
      rfl

/-- C5: for every book and (DB-generated, hence nonzero) chapter id, calling
`update_user_progress` twice with the same chapter id — starting from a store
with no progress record for the book, or one whose stored completed list
parses and contains the chapter at most once (every reachable record has no
duplicates) — succeeds and leaves a completed set containing that chapter id
exactly once, not twice. -/
theorem updateProgress_idempotent (st : DBState) (bid cid : Nat) (hcid : cid ≠ 0)
    (hstart : getUserProgress st bid = none ∨
      ∃ p l, getUserProgress st bid = some p ∧
        loads p.completed_chapters = Except.ok l ∧ l.count cid ≤ 1) :
    ∃ r1 st1 r2 st2,
      updateUserProgress st bid (some cid) = Except.ok (r1, st1) ∧
      updateUserProgress st1 bid (some cid) = Except.ok (r2, st2) ∧
      ∃ p2 l2, getUserProgress st2 bid = some p2 ∧
        loads p2.completed_chapters = Except.ok l2 ∧ l2.count cid = 1 := by
  rcases hstart with hnone | ⟨p, l, hp, hl, hcount⟩
  · obtain ⟨r1, st1, h1, _, hblob, hfind⟩ := updateUserProgress_none st bid cid hnone
    obtain ⟨r2, st2, h2, hfind2, hload2, _⟩ :=
      updateUserProgress_some st1 bid cid r1 [] hcid hfind (by rw [hblob]; rfl)
    refine ⟨r1, st1, r2, st2, h1, h2, r2, [cid], hfind2, ?_, by simp⟩
    simpa using hload2
  · obtain ⟨r1, st1, h1, hfind1, hload1, _⟩ :=
      updateUserProgress_some st bid cid p l hcid hp hl
    obtain ⟨r2, st2, h2, hfind2, hload2, _⟩ :=
      updateUserProgress_some st1 bid cid r1 (if cid ∈ l then l else l ++ [cid])
        hcid hfind1 hload1
    have hmem : cid ∈ (if cid ∈ l then l else l ++ [cid]) := by
      by_cases hm : cid ∈ l <;> simp [hm]
    rw [if_pos hmem] at hload2
    refine ⟨r1, st1, r2, st2, h1, h2, r2, _, hfind2, hload2, ?_⟩
    by_cases hm : cid ∈ l
    · rw [if_pos hm]
      have hpos := List.count_pos_iff.mpr hm
      omega
    · rw [if_neg hm, List.count_append, List.count_eq_zero.mpr hm]
      simp

/-- Witness for C5: two calls for chapter 2 of book 1 on an empty store. -/
theorem updateProgress_idempotent_witness :
    (2 : Nat) ≠ 0 ∧
    ∃ r1 st1 r2 st2,
      updateUserProgress ⟨[], [], [], []⟩ 1 (some 2) = Except.ok (r1, st1) ∧
      updateUserProgress st1 1 (some 2) = Except.ok (r2, st2) ∧
      ∃ p2 l2, getUserProgress st2 1 = some p2 ∧
        loads p2.completed_chapters = Except.ok l2 ∧ l2.count 2 = 1 :=
  ⟨by decide,
   updateProgress_idempotent ⟨[], [], [], []⟩ 1 2 (by decide) (Or.inl (by decide))⟩

/-- C7 counterexample: on the one-page document `"Chapter 1 x]\ny"`, the
chapter's raw span contains no page-marker token at all, yet the returned
chapter text differs from it — the `]` of the page content itself was
rewritten to `:` by `.replace(']\n', ':\n')` — refuting "all other text of
the chapter is exposed to the caller unchanged". -/
theorem reformat_rewrites_nonmarker_cex :
    segsOf (fullText [strl "Chapter 1 x]\ny"])
        (findIter (fullText [strl "Chapter 1 x]\ny"])) =
      [(strl "Chapter 1", strl "Chapter 1 x]\ny")] ∧
    containsSub (strl "[PAGE_") (strl "Chapter 1 x]\ny") = false ∧
    detectChapters [strl "Chapter 1 x]\ny"] =
      [(strl "Chapter 1", strl "Chapter 1 x:\ny")] ∧
    strl "Chapter 1 x:\ny" ≠ strl "Chapter 1 x]\ny" := by
  refine ⟨by decide, by decide, by decide, by decide⟩

lemma not_isPrefixOf_of_containsSub_false {pat s : Str} (hpat : pat ≠ [])
    (h : containsSub pat s = false) : ∀ i, ¬ pat.isPrefixOf (s.drop i) := by
  intro i hpre
  by_cases hi : i ≤ s.length
  · unfold containsSub at h
    rw [List.any_eq_false] at h
    exact h i (by rw [List.mem_range]; omega) hpre
  · rw [List.drop_eq_nil_of_le (by omega)] at hpre
    match pat, hpat with
    | c :: rest, _ => simp at hpre

lemma replOpen_cons_not_marker (c : Char) (rest : Str)
    (h : ¬ (strl "[PAGE_").isPrefixOf (c :: rest)) :
    replOpen (c :: rest) = c :: replOpen rest := by
  rw [replOpen.eq_def]
  split
  · next r heq =>
    exfalso
    apply h
    have hp : strl "[PAGE_" = '[' :: 'P' :: 'A' :: 'G' :: 'E' :: '_' :: [] := rfl
    rw [heq, hp]
    simp [List.isPrefixOf_cons₂]
  · next c2 rest2 hno heq =>
    cases heq
    rfl
  · next heq => cases heq

lemma replClose_cons_not_close (c : Char) (rest : Str)
    (h : ¬ (strl "]\n").isPrefixOf (c :: rest)) :
    replClose (c :: rest) = c :: replClose rest := by
  rw [replClose.eq_def]
  split
  · next r heq =>
    exfalso
    apply h
    have hp : strl "]\n" = ']' :: '\n' :: [] := rfl
    rw [heq, hp]
    simp [List.isPrefixOf_cons₂]
  · next c2 rest2 hno heq =>
    cases heq
    rfl
  · next heq => cases heq

lemma replOpen_cons_ne (c : Char) (rest : Str) (h : c ≠ '[') :
    replOpen (c :: rest) = c :: replOpen rest := by
  apply replOpen_cons_not_marker
  have hp : strl "[PAGE_" = '[' :: 'P' :: 'A' :: 'G' :: 'E' :: '_' :: [] := rfl
  rw [hp]
  simp [List.isPrefixOf_cons₂, beq_iff_eq]
  intro he
  exact absurd he.symm h

lemma replClose_cons_ne (c : Char) (rest : Str) (h : c ≠ ']') :
    replClose (c :: rest) = c :: replClose rest := by
  apply replClose_cons_not_close
  have hp : strl "]\n" = ']' :: '\n' :: [] := rfl
  rw [hp]
  simp [List.isPrefixOf_cons₂, beq_iff_eq]
  intro he
  exact absurd he.symm h

lemma replOpen_eq_self (s : Str)
    (h : ∀ i, ¬ (strl "[PAGE_").isPrefixOf (s.drop i)) : replOpen s = s := by
  induction s with
  | nil => rfl
  | cons c rest ih =>
    rw [replOpen_cons_not_marker c rest (by simpa using h 0)]
    have ih2 := ih (fun i => by simpa [List.drop_succ_cons] using h (i + 1))
    rw [ih2]

lemma replClose_eq_self (s : Str)
    (h : ∀ i, ¬ (strl "]\n").isPrefixOf (s.drop i)) : replClose s = s := by
  induction s with
  | nil => rfl
  | cons c rest ih =>
    rw [replClose_cons_not_close c rest (by simpa using h 0)]
    have ih2 := ih (fun i => by simpa [List.drop_succ_cons] using h (i + 1))
    rw [ih2]

lemma replOpen_append_clean (a b : Str) (h : ∀ c ∈ a, c ≠ '[') :
    replOpen (a ++ b) = a ++ replOpen b := by
  induction a with
  | nil => rfl
  | cons c rest ih =>
    rw [List.cons_append, replOpen_cons_ne c _ (h c (List.mem_cons_self _ _)),
      ih (fun x hx => h x (List.mem_cons_of_mem _ hx))]
    rfl

lemma replClose_append_clean (a b : Str) (h : ∀ c ∈ a, c ≠ ']') :
    replClose (a ++ b) = a ++ replClose b := by
  induction a with
  | nil => rfl
  | cons c rest ih =>
    rw [List.cons_append, replClose_cons_ne c _ (h c (List.mem_cons_self _ _)),
      ih (fun x hx => h x (List.mem_cons_of_mem _ hx))]
    rfl

lemma replOpen_marker_head (rest : Str) :
    replOpen ('[' :: 'P' :: 'A' :: 'G' :: 'E' :: '_' :: rest) =
      '\n' :: 'P' :: 'a' :: 'g' :: 'e' :: ' ' :: replOpen rest := rfl

lemma replClose_close_head (rest : Str) :
    replClose (']' :: '\n' :: rest) = ':' :: '\n' :: replClose rest := rfl

/-- C7 amended: the marker rewriting is plain textual `str.replace`: a chapter
span free of the substrings `[PAGE_` and `]\n` is exposed entirely unchanged,
and a page-marker token `[PAGE_<digits>]\n` at a page boundary is rewritten to
`\nPage <digits>:\n` with the rest of the span processed recursively — but
(per the counterexample) occurrences of those substrings inside the page
content itself are rewritten as well, so only marker-free text is guaranteed
unchanged. -/
theorem reformat_exact_on_clean_text :
    (∀ s : Str, containsSub (strl "[PAGE_") s = false →
      containsSub (strl "]\n") s = false → reformat s = s) ∧
    (∀ (ds t : Str), (∀ c ∈ ds, c.isDigit = true) →
      reformat (strl "[PAGE_" ++ ds ++ ']' :: '\n' :: t) =
        strl "\nPage " ++ ds ++ ':' :: '\n' :: reformat t) := by
  constructor
  · intro s h1 h2
    unfold reformat
    rw [replOpen_eq_self s (not_isPrefixOf_of_containsSub_false (by decide) h1),
      replClose_eq_self s (not_isPrefixOf_of_containsSub_false (by decide) h2)]
  · intro ds t hds
    have hds1 : ∀ c ∈ ds, c ≠ '[' := by
      intro c hc he
      have := hds c hc
      rw [he] at this
      exact absurd this (by decide)
    have hds2 : ∀ c ∈ ds, c ≠ ']' := by
      intro c hc he
      have := hds c hc
      rw [he] at this
      exact absurd this (by decide)
    show replClose (replOpen ('[' :: 'P' :: 'A' :: 'G' :: 'E' :: '_' ::
      (ds ++ ']' :: '\n' :: t))) = _
    rw [replOpen_marker_head, replOpen_append_clean ds _ hds1,
      replOpen_cons_ne ']' _ (by decide), replOpen_cons_ne '\n' _ (by decide),
      replClose_cons_ne '\n' _ (by decide), replClose_cons_ne 'P' _ (by decide),
      replClose_cons_ne 'a' _ (by decide), replClose_cons_ne 'g' _ (by decide),
      replClose_cons_ne 'e' _ (by decide), replClose_cons_ne ' ' _ (by decide),
      replClose_append_clean ds _ hds2, replClose_close_head]
    rfl

/-- Witness for the amended C7: a marker-free span is unchanged; a span
starting with the page-0-style token `[PAGE_7]\n` is rewritten to the
human-readable header. -/
theorem reformat_exact_on_clean_text_witness :
    reformat (strl "hello ] x") = strl "hello ] x" ∧
    reformat (strl "[PAGE_7]\nabc") = strl "\nPage 7:\nabc" :=
  ⟨reformat_exact_on_clean_text.1 (strl "hello ] x") (by decide) (by decide),
   reformat_exact_on_clean_text.2 (strl "7") (strl "abc") (by decide)⟩

/-- C4 counterexample: for the one-page document `"intro\nChapter 1 hello"`,
the single returned chapter text is `"Chapter 1 hello"` — it contains no page
headers to strip, so after undoing the marker reformatting the concatenation
of the returned chapter texts is still `"Chapter 1 hello"`, which is not the
raw text: the preamble before the first heading match was dropped. -/
theorem segmentation_drops_preamble_cex :
    detectChapters [strl "intro\nChapter 1 hello"] =
      [(strl "Chapter 1", strl "Chapter 1 hello")] ∧
    stripHeaders (strl "Chapter 1 hello") = strl "Chapter 1 hello" ∧
    rawText [strl "intro\nChapter 1 hello"] = strl "intro\nChapter 1 hello" ∧
    strl "Chapter 1 hello" ≠ strl "intro\nChapter 1 hello" := by
  refine ⟨by decide, by decide, by decide, by decide⟩

lemma findIterAux_lb (s : Str) :
    ∀ (fuel i : Nat), ∀ m ∈ findIterAux s fuel i, i ≤ m.1 := by
  intro fuel
  induction fuel with
  | zero => intro i m hm; simp [findIterAux] at hm
  | succ n ih =>
    intro i m hm
    unfold findIterAux at hm
    split at hm
    · cases hmc : matchChapterAt (s.drop i) with
      | some pr =>
        obtain ⟨len, g⟩ := pr
        rw [hmc] at hm
        rcases List.mem_cons.mp hm with rfl | hm2
        · exact Nat.le_refl _
        · have := ih _ m hm2
          simp only at this
          omega
      | none =>
        rw [hmc] at hm
        have := ih _ m hm
        omega
    · simp at hm

lemma findIterAux_chain (s : Str) :
    ∀ (fuel i : Nat), List.Chain' (fun a b => a.1 ≤ b.1) (findIterAux s fuel i) := by
  intro fuel
  induction fuel with
  | zero => intro i; simp [findIterAux]
  | succ n ih =>
    intro i
    unfold findIterAux
    split
    · cases hmc : matchChapterAt (s.drop i) with
      | some pr =>
        obtain ⟨len, g⟩ := pr
        refine List.chain'_cons'.mpr ⟨?_, ih _⟩
        intro b hb
        have hmem := List.mem_of_mem_head? hb
        have := findIterAux_lb s n (i + max len 1) b hmem
        simp only
        omega
      | none => exact ih _
    · exact List.chain'_nil

lemma segs_concat (full : Str) :
    ∀ (ms : List (Nat × Str)) (p : Nat) (g : Str),
      List.Chain' (fun a b => a.1 ≤ b.1) ((p, g) :: ms) →
      ((segsOf full ((p, g) :: ms)).map (fun nt => nt.2)).flatten = full.drop p := by
  intro ms
  induction ms with
  | nil =>
    intro p g _
    simp only [segsOf, List.map_cons, List.map_nil, List.flatten_cons,
      List.flatten_nil, List.append_nil]
    rw [← List.length_drop]
    exact List.take_length _
  | cons q2 rest ih =>
    obtain ⟨q, g2⟩ := q2
    intro p g hch
    rw [List.chain'_cons] at hch
    obtain ⟨hpq, hch2⟩ := hch
    have hpq2 : p ≤ q := hpq
    have IH := ih q g2 hch2
    show (((strl "Chapter " ++ g, (full.drop p).take (q - p)) ::
      segsOf full ((q, g2) :: rest)).map (fun nt => nt.2)).flatten = full.drop p
    rw [List.map_cons, List.flatten_cons, IH]
    conv_rhs => rw [← List.take_append_drop (q - p) (full.drop p)]
    congr 1
    rw [List.drop_drop]
    congr 1
    omega

lemma segsFold_go (segs : List (Str × Str)) :
    ∀ d : List (Str × Str),
      segs.Pairwise (fun a b => a.1 ≠ b.1) →
      (∀ s ∈ segs, ∀ kv ∈ d, kv.1 ≠ s.1) →
      segs.foldl (fun d nt => dictInsert d nt.1 (reformat nt.2)) d
        = d ++ segs.map (fun nt => (nt.1, reformat nt.2)) := by
  induction segs with
  | nil => intro d _ _; simp
  | cons s0 rest ih =>
    intro d hp hf
    rcases List.pairwise_cons.mp hp with ⟨hhead, hrest⟩
    have hfr : ∀ t ∈ rest, ∀ kv ∈ d ++ [(s0.1, reformat s0.2)], kv.1 ≠ t.1 := by
      intro t ht kv hkv
      rcases List.mem_append.mp hkv with h1 | h2
      · exact hf t (List.mem_cons_of_mem _ ht) kv h1
      · rw [List.mem_singleton.mp h2]
        exact hhead t ht
    rw [List.foldl_cons,
      dictInsert_fresh _ _ _ (fun kv hkv => hf s0 (List.mem_cons_self _ _) kv hkv),
      ih (d ++ [(s0.1, reformat s0.2)]) hrest hfr, List.map_cons,
      List.append_assoc, List.singleton_append]

/-- C4 amended: when the default pattern has at least one match and the
heading labels are pairwise distinct, the returned mapping consists exactly of
the reformatted raw spans, in match order, and the concatenation of those raw
spans (the chapter texts before the page-marker reformatting, i.e. after
undoing it) equals the marker-annotated document text from the first heading
match onward: nothing from the first heading to the end of the document is
lost or duplicated, but the preamble before the first heading is dropped (it
is not part of any returned chapter), so the concatenation does not recover
the full raw text. -/
theorem segmentation_partitions_from_first_heading (pages : List Str)
    (p : Nat) (g : Str) (ms : List (Nat × Str))
    (hm : findIter (fullText pages) = (p, g) :: ms)
    (hdist : (segsOf (fullText pages) ((p, g) :: ms)).Pairwise
      (fun a b => a.1 ≠ b.1)) :
    detectChapters pages =
      (segsOf (fullText pages) ((p, g) :: ms)).map
        (fun nt => (nt.1, reformat nt.2)) ∧
    ((segsOf (fullText pages) ((p, g) :: ms)).map (fun nt => nt.2)).flatten =
      (fullText pages).drop p := by
  have hchain : List.Chain' (fun a b => a.1 ≤ b.1) ((p, g) :: ms) := by
    have hm2 : findIterAux (fullText pages) (fullText pages).length 0 =
        (p, g) :: ms := hm
    have hc := findIterAux_chain (fullText pages) (fullText pages).length 0
    rw [hm2] at hc
    exact hc
  constructor
  · simp only [detectChapters, hm]
    rw [segsFold_go (segsOf (fullText pages) ((p, g) :: ms)) [] hdist (by simp)]
    rw [List.nil_append]
  · exact segs_concat (fullText pages) ms p g hchain

/-- Witness for the amended C4: the spec's three-page scenario, whose two
matches are at offsets 9 and 70 of the marker-annotated blob. -/
theorem segmentation_partitions_from_first_heading_witness :
    findIter (fullText pagesScenario) = [(9, strl "1"), (70, strl "2")] ∧
    ((segsOf (fullText pagesScenario) ((9, strl "1") :: [(70, strl "2")])).map
        (fun nt => nt.2)).flatten =
      (fullText pagesScenario).drop 9 :=
  ⟨by decide,
   (segmentation_partitions_from_first_heading pagesScenario 9 (strl "1")
      [(70, strl "2")] (by decide) (by decide)).2⟩

end EduSum
